import Mathlib

/-
Verification development for the CruiseCatcher price-alert repository.

The repository polls a paginated cruise-pricing feed, flattens it into uniquely
identified offerings, diffs the current snapshot against the stored one and
emits price-drop events.  The development below embeds, as executable Lean
definitions:

* the pagination / flattening loop of `fetchCruises` (src/lib/cruise-api.ts,
  the latest grades-based revision present in the snapshot), with the network
  abstracted as a function from URL to fetch outcome and the unbounded `while`
  loop rendered with explicit fuel (`none` = the loop is still running after
  that many iterations);
* the price-drop monitor `monitorPriceDrops` of
  src/ai/flows/price-drop-email-summarization.ts (the revision that keys
  offerings by `offering_id`, archives "latest" to "previous" and applies the
  0.01 minimum-drop threshold), over an explicit store state;
* JavaScript `parseFloat` on the decimal-literal fragment used by the feed's
  price strings, with exact rational values in place of IEEE doubles;
* the identity-key construction and keyed-map deduplication of the final
  offering flattener, which is absent from the source snapshot (only its
  callers are present) and is therefore modelled from the specification.
-/

namespace PriceAlert

/-- Value of a decimal digit character. -/
def digitVal (c : Char) : Nat := c.toNat - '0'.toNat

/-- Numeric value of a list of decimal digit characters (most significant first). -/
def digitsVal (cs : List Char) : Nat := cs.foldl (fun n c => 10 * n + digitVal c) 0

/-- The rational value denoted by a parsed decimal literal: sign, integer part,
fractional digits value and fractional digit count. -/
def ratOf (pos : Bool) (ip fp k : Nat) : ℚ :=
  (if pos then 1 else -1) * ((ip : ℚ) + (fp : ℚ) / 10 ^ k)

/-- Model of JavaScript `parseFloat` on the decimal-literal fragment used by the
feed's price strings: an optional sign, an integer part and an optional
fractional part, any trailing junk ignored (as `parseFloat` does).  Returns
`none` exactly when no leading number can be parsed, modelling the `NaN`
result; all numeric comparisons of the source are modelled over exact
rationals. -/
def parseFloat (s : String) : Option ℚ :=
  let signAndRest : Bool × List Char :=
    match s.data with
    | '-' :: rest => (false, rest)
    | '+' :: rest => (true, rest)
    | cs => (true, cs)
  let body := signAndRest.2
  let intPart := body.takeWhile Char.isDigit
  let afterInt := body.dropWhile Char.isDigit
  let fracPart :=
    match afterInt with
    | '.' :: r => r.takeWhile Char.isDigit
    | _ => []
  if intPart.isEmpty && fracPart.isEmpty then none
  else some (ratOf signAndRest.1 (digitsVal intPart) (digitsVal fracPart) fracPart.length)

lemma string_data_append (a b : String) : (a ++ b).data = a.data ++ b.data := rfl

lemma string_ext {a b : String} (h : a.data = b.data) : a = b := by
  cases a; cases b; cases h; rfl

/-! ## src/lib/cruise-api.ts — the paginated fetch and per-page flattening

Embedding of the latest grades-based revision of `fetchCruises` present in the
snapshot (the one that logs and `break`s on a non-success status, catches parse
errors, and follows `_links.next.href` unless it is falsy or equal to the URL
just fetched).  The network is abstracted as a total function from URL to
outcome; the `while` loop is rendered with explicit fuel, `none` meaning the
loop is still running after consuming the fuel.  The result also carries the
list of URLs fetched, in order. -/

namespace Api

/-- A single cabin grade with its pricing (interface `Grade`). -/
structure Grade where
  grade_code : String
  grade_name : String
  price : String
deriving DecidableEq

/-- A cruise from the API, containing multiple grades (interface `CruiseFromApi`). -/
structure CruiseFromApi where
  vendor_id : String
  name : String
  ship_title : String
  starts_on : String
  grades : List Grade
deriving DecidableEq

/-- A flattened cruise offering, one cruise plus one cabin grade
(interface `CruiseOffering` of cruise-api.ts). -/
structure CruiseOffering where
  vendor_id : String
  grade_code : String
  name : String
  ship_title : String
  starts_on : String
  grade_name : String
  price : String
deriving DecidableEq

/-- One parsed page of the feed (interface `ApiResponse`): `data.cruises || []`
is modelled as a plain list, and `_links.next?.href` as an optional string. -/
structure ApiResponse where
  cruises : List CruiseFromApi
  next : Option String
deriving DecidableEq

/-- Outcome of fetching one URL: a non-success HTTP status (the `!response.ok`
branch, which `break`s), a thrown fetch/parse error (caught, ending
pagination), or a parsed body. -/
inductive FetchOutcome where
  | httpError
  | parseError
  | ok (body : ApiResponse)
deriving DecidableEq

/-- The retention test of the flattening loop:
`grade.price && parseFloat(grade.price) > 0 && grade.grade_code && grade.grade_name`
(JavaScript string truthiness = non-emptiness; `NaN > 0` is false). -/
def gradeRetained (g : Grade) : Bool :=
  !(g.price = "") &&
    (match parseFloat g.price with
     | some q => decide (0 < q)
     | none => false) &&
    !(g.grade_code = "") && !(g.grade_name = "")

/-- The offering pushed for a retained cruise/grade pair. -/
def mkOffering (c : CruiseFromApi) (g : Grade) : CruiseOffering :=
  { vendor_id := c.vendor_id
  , grade_code := g.grade_code
  , name := c.name
  , ship_title := c.ship_title
  , starts_on := c.starts_on
  , grade_name := g.grade_name
  , price := g.price }

/-- The two nested `for` loops flattening one page's hierarchical structure
(the `cruise.grades && Array.isArray(cruise.grades)` guard always holds in the
typed model). -/
def flattenPage (cruises : List CruiseFromApi) : List CruiseOffering :=
  cruises.flatMap (fun c => (c.grades.filter gradeRetained).map (mkOffering c))

/-- The `while (currentUrl)` pagination loop.  Arguments: the network, the
remaining fuel, the current URL (`none` = `undefined`), the offerings
accumulated so far (`allOfferings`) and the URLs fetched so far.  A non-success
status or a thrown error ends pagination keeping the accumulated offerings; on
success the page is flattened and the next URL adopted only when it is truthy
and different from the URL just fetched. -/
def fetchLoop (net : String → FetchOutcome) :
    Nat → Option String → List CruiseOffering → List String →
      Option (List CruiseOffering × List String)
  | _, none, acc, visited => some (acc, visited)
  | 0, some _, _, _ => none
  | fuel + 1, some url, acc, visited =>
    match net url with
    | .httpError => some (acc, visited ++ [url])
    | .parseError => some (acc, visited ++ [url])
    | .ok body =>
      let acc' := acc ++ flattenPage body.cruises
      let nextUrl : Option String :=
        match body.next with
        | some nx => if nx ≠ "" ∧ nx ≠ url then some nx else none
        | none => none
      fetchLoop net fuel nextUrl acc' (visited ++ [url])

/-- `fetchCruises`, starting from the configured endpoint URL (a parameter
here, since it comes from the environment). -/
def fetchCruises (net : String → FetchOutcome) (fuel : Nat) (startUrl : String) :
    Option (List CruiseOffering × List String) :=
  fetchLoop net fuel (some startUrl) [] []

end Api

/-! ## src/ai/flows/price-drop-email-summarization.ts — the monitor

Embedding of the latest revision of the flow (the one using the
`cruises_latest` / `cruises_previous` / `priceDrops` collections): offerings
carry an `offering_id` identity key plus deal fields, the previous snapshot is
indexed into a `Map` keyed by `offering_id`, and a drop is emitted when both
prices parse positive and the decrease is at least 0.01. -/

namespace Flows

/-- The flattened offering consumed by the monitor (type `CruiseOffering` of
the final cruise-api.ts revision, whose fields are fixed by its uses in the
monitor and in the comparison page: `offering_id`, deal code/name, grade
code/name, price). -/
structure CruiseOffering where
  offering_id : String
  vendor_id : String
  name : String
  ship_title : String
  starts_on : String
  grade_code : String
  grade_name : String
  dealCode : String
  dealName : String
  price : String
deriving DecidableEq

/-- A detected price drop (schema `PriceDropInfoSchema`). -/
structure PriceDropInfo where
  shipName : String
  cruiseDate : String
  vendorId : String
  dealCode : String
  dealName : String
  gradeCode : String
  gradeName : String
  priceFrom : ℚ
  priceTo : ℚ
  detectedAt : String
deriving DecidableEq

/-- English month name, as produced by date-fns `format(date, 'MMMM yyyy')`. -/
def monthName : Nat → String
  | 1 => "January"
  | 2 => "February"
  | 3 => "March"
  | 4 => "April"
  | 5 => "May"
  | 6 => "June"
  | 7 => "July"
  | 8 => "August"
  | 9 => "September"
  | 10 => "October"
  | 11 => "November"
  | 12 => "December"
  | _ => ""

/-- `formatDateWithOrdinal`: parses a leading `YYYY-MM-DD` ISO date and renders
the day with its English ordinal followed by month name and year; any parse
failure falls back to the original string (the `catch` branch). -/
def formatDateWithOrdinal (s : String) : String :=
  let cs := s.data
  let y := cs.take 4
  let dash1 := (cs.drop 4).take 1
  let m := (cs.drop 5).take 2
  let dash2 := (cs.drop 7).take 1
  let d := (cs.drop 8).take 2
  if y.length = 4 ∧ y.all Char.isDigit ∧ dash1 = ['-'] ∧
      m.length = 2 ∧ m.all Char.isDigit ∧ dash2 = ['-'] ∧
      d.length = 2 ∧ d.all Char.isDigit ∧
      1 ≤ digitsVal m ∧ digitsVal m ≤ 12 then
    let day := digitsVal d
    let ord :=
      if day = 1 ∨ day = 21 ∨ day = 31 then "st"
      else if day = 2 ∨ day = 22 then "nd"
      else if day = 3 ∨ day = 23 then "rd"
      else "th"
    toString day ++ ord ++ " " ++ monthName (digitsVal m) ++ " " ++ toString (digitsVal y)
  else s

/-- JavaScript `Map.set` on an association list: replace the value in place
when the key is present, append otherwise. -/
def upsert {α : Type} (m : List (String × α)) (k : String) (v : α) :
    List (String × α) :=
  match m with
  | [] => [(k, v)]
  | (k', v') :: rest => if k' = k then (k, v) :: rest else (k', v') :: upsert rest k v

/-- JavaScript `Map.get` on an association list. -/
def alookup {α : Type} (m : List (String × α)) (k : String) : Option α :=
  match m with
  | [] => none
  | (k', v) :: rest => if k' = k then some v else alookup rest k

/-- Building a `Map` from a list of offerings keyed by `offering_id` by
iterated `Map.set` (`for (const offering of ...) map.set(offering.offering_id,
offering)`), starting from an arbitrary map. -/
def buildMap (xs : List CruiseOffering) (m : List (String × CruiseOffering)) :
    List (String × CruiseOffering) :=
  xs.foldl (fun acc o => upsert acc o.offering_id o) m

/-- The body of the comparison loop for one current offering: look the identity
key up in the previous-offerings map and emit a drop event when both prices
parse to positive numbers and the decrease is at least one cent.  An
unparseable price is `NaN` in the source, and every `NaN` comparison is false,
so both no-parse branches emit nothing. -/
def checkDrop (m : List (String × CruiseOffering)) (now : String)
    (cur : CruiseOffering) : Option PriceDropInfo :=
  match alookup m cur.offering_id with
  | none => none
  | some prev =>
    match parseFloat cur.price, parseFloat prev.price with
    | some currentPrice, some previousPrice =>
      if 0 < currentPrice ∧ 0 < previousPrice ∧
          1 / 100 ≤ previousPrice - currentPrice then
        some
          { shipName := cur.ship_title
          , cruiseDate := formatDateWithOrdinal cur.starts_on
          , vendorId := cur.vendor_id
          , dealCode := cur.dealCode
          , dealName := cur.dealName
          , gradeCode := cur.grade_code
          , gradeName := cur.grade_name
          , priceFrom := previousPrice
          , priceTo := currentPrice
          , detectedAt := now }
      else none
    | some _, none => none
    | none, some _ => none
    | none, none => none

/-- The drop-detection pass of `monitorPriceDrops`: index the previous
offerings by identity key, then, guarded by `previousOfferings.length > 0`,
scan the current offerings in order, collecting the emitted events. -/
def detectDrops (now : String) (current previous : List CruiseOffering) :
    List PriceDropInfo :=
  let m := buildMap previous []
  if previous.length > 0 then current.filterMap (checkDrop m now) else []

/-- A stored snapshot document (`CruisesDoc`): the offerings of one fetch cycle
and the write timestamp. -/
structure CruisesDoc where
  offerings : List CruiseOffering
  updatedAt : Nat
deriving DecidableEq

/-- The state of the MongoDB store touched by the monitor: the
`cruises_latest` and `cruises_previous` single-document slots and the
append-only `priceDrops` log. -/
structure StoreState where
  latest : Option CruisesDoc
  previous : Option CruisesDoc
  priceDrops : List PriceDropInfo
deriving DecidableEq

/-- Run configuration read from the environment: the notification address and
whether the database collections are available. -/
structure MonitorEnv where
  notificationEmail : Option String
  dbConfigured : Bool

/-- One run of the `monitorPriceDrops` flow over the store, with the offerings
returned by `fetchCruises` as a parameter.  Steps, in source order: the
configuration guards (each returning early with the store untouched), the
archive of "latest" into "previous" (only when a "latest" exists), the save of
the fetched offerings as "latest" (only when at least one was fetched), the
read of "previous", drop detection, and the append of the detected drops to
the log (`insertMany`, only when some were detected).  Sending the email does
not touch the store. -/
def monitorPriceDrops (env : MonitorEnv) (now : Nat) (nowIso : String)
    (fetched : List CruiseOffering) (st : StoreState) : StoreState :=
  match env.notificationEmail with
  | none => st
  | some _ =>
    if env.dbConfigured then
      let st1 :=
        match st.latest with
        | some doc =>
          { st with previous := some { offerings := doc.offerings, updatedAt := now } }
        | none => st
      let st2 :=
        if fetched.length > 0 then
          { st1 with latest := some { offerings := fetched, updatedAt := now } }
        else st1
      let previousOfferings :=
        match st2.previous with
        | some doc => doc.offerings
        | none => []
      let drops := detectDrops nowIso fetched previousOfferings
      if drops.length > 0 then
        { st2 with priceDrops := st2.priceDrops ++ drops }
      else st2
    else st

end Flows

/-! ## The final offering flattener — modelled from the specification

The revision of cruise-api.ts that the current monitor consumes (it produces
offerings carrying `offering_id`, `dealCode` and `dealName`) is absent from the
source snapshot; only its callers are.  Its identity-key construction,
retention condition and in-fetch deduplication are therefore modelled from the
specification (§4.1). -/

namespace Flows

/-- Modelled from the spec: the identity-key construction of the final
cruise-api.ts, which is absent from the snapshot — "concatenate vendor id, deal
identifier ... and grade code, joined by a separator guaranteed not to appear
in any component (e.g., a pipe character)". -/
def offeringKey (vendor deal grade : String) : String :=
  vendor ++ "|" ++ deal ++ "|" ++ grade

/-- Modelled from the spec: one raw fare entry (a grade/fare combination of a
cruise record) as consumed by the final flattener, which is absent from the
snapshot. -/
structure RawFare where
  grade_code : String
  grade_name : String
  dealCode : String
  dealName : String
  price : String
deriving DecidableEq

/-- Modelled from the spec: one raw cruise record of a feed page as consumed by
the final flattener, which is absent from the snapshot. -/
structure RawCruise where
  vendor_id : String
  name : String
  ship_title : String
  starts_on : String
  fares : List RawFare
deriving DecidableEq

/-- Modelled from the spec: the retention condition of the final flattener,
which is absent from the snapshot — "construct one Offering if and only if:
grade code is present, price string parses to a finite number, and price > 0"
(missing deal / grade-name fields are preserved as-is rather than rejected). -/
def fareRetained (f : RawFare) : Bool :=
  !(f.grade_code = "") &&
    (match parseFloat f.price with
     | some q => decide (0 < q)
     | none => false)

/-- Modelled from the spec: the offering built from a cruise record and one of
its retained fares, with the derived identity key. -/
def mkOffering (c : RawCruise) (f : RawFare) : CruiseOffering :=
  { offering_id := offeringKey c.vendor_id f.dealCode f.grade_code
  , vendor_id := c.vendor_id
  , name := c.name
  , ship_title := c.ship_title
  , starts_on := c.starts_on
  , grade_code := f.grade_code
  , grade_name := f.grade_name
  , dealCode := f.dealCode
  , dealName := f.dealName
  , price := f.price }

/-- Modelled from the spec: the offerings a feed's cruise records give rise to,
in iteration order, before deduplication; entries failing the retention
condition are skipped silently. -/
def flattenCandidates (cruises : List RawCruise) : List CruiseOffering :=
  cruises.flatMap (fun c => (c.fares.filter fareRetained).map (mkOffering c))

/-- Modelled from the spec: the deduplicated flattener output — the candidates
written into a map keyed by identity key ("the later one in iteration order
wins") and the map's values returned as a list. -/
def flattenOfferings (cruises : List RawCruise) : List CruiseOffering :=
  (buildMap (flattenCandidates cruises) []).map Prod.snd

/-- The entries of an association list all carry their own identity key. -/
def keyedBy (m : List (String × CruiseOffering)) : Prop :=
  ∀ p ∈ m, p.2.offering_id = p.1

/-- The last offering of a list carrying a given identity key, if any. -/
def lastWith (k : String) (xs : List CruiseOffering) : Option CruiseOffering :=
  (xs.filter (fun o => o.offering_id = k)).getLast?

end Flows

/-! ## Concrete sample data used to exercise the theorems -/

/-- A current offering for the balcony grade of the BELLA deal, priced 99.99. -/
def cw : Flows.CruiseOffering :=
  { offering_id := "MSC-1|BELLA|BAL"
  , vendor_id := "MSC-1"
  , name := "Voyage"
  , ship_title := "Ship"
  , starts_on := "s"
  , grade_code := "BAL"
  , grade_name := "Balcony"
  , dealCode := "BELLA"
  , dealName := "Bella"
  , price := "99.99" }

/-- The same offering as previously snapshotted, priced 100.00. -/
def pw : Flows.CruiseOffering :=
  { cw with price := "100.00" }

/-- The drop event the monitor emits for `cw` against `pw`. -/
def ew : Flows.PriceDropInfo :=
  { shipName := "Ship"
  , cruiseDate := Flows.formatDateWithOrdinal "s"
  , vendorId := "MSC-1"
  , dealCode := "BELLA"
  , dealName := "Bella"
  , gradeCode := "BAL"
  , gradeName := "Balcony"
  , priceFrom := ratOf true 100 0 2
  , priceTo := ratOf true 99 99 2
  , detectedAt := "t" }

/-- A flattened offering already accumulated from earlier pages. -/
def aw : Api.CruiseOffering :=
  { vendor_id := "MSC-1"
  , grade_code := "BAL"
  , name := "Voyage"
  , ship_title := "Ship"
  , starts_on := "s"
  , grade_name := "Balcony"
  , price := "100.00" }

/-- A network where the second page fails with a non-success status. -/
def netFail : String → Api.FetchOutcome := fun u =>
  if u = "u1" then .ok { cruises := [], next := some "u2" } else .httpError

/-- A feed whose every page's next link points back at the page itself. -/
def netSelf : String → Api.FetchOutcome := fun u =>
  .ok { cruises := [], next := some u }

/-- A feed whose pages alternate between two URLs: the next link of "a" is "b"
and the next link of "b" is "a". -/
def netAB : String → Api.FetchOutcome := fun u =>
  if u = "a" then .ok { cruises := [], next := some "b" }
  else if u = "b" then .ok { cruises := [], next := some "a" }
  else .httpError

/-! ## Theorems -/

/-- C5: for every list of current offerings, drop detection against an empty
previous snapshot produces no events: a first run never treats missing history
as a drop. -/
theorem C5_no_baseline_guard (now : String) (current : List Flows.CruiseOffering) :
    Flows.detectDrops now current [] = [] := rfl

/-- C2: a monitoring run whose fetch returns zero offerings leaves the "latest"
snapshot slot exactly as it was before the run, for every prior store state and
configuration. -/
theorem C2_empty_fetch_preserves_latest (env : Flows.MonitorEnv) (now : Nat)
    (nowIso : String) (st : Flows.StoreState) :
    (Flows.monitorPriceDrops env now nowIso [] st).latest = st.latest := by
  unfold Flows.monitorPriceDrops
  cases env.notificationEmail with
  | none => rfl
  | some e =>
    by_cases hdb : env.dbConfigured
    · simp only [if_pos hdb]
      cases hl : st.latest <;>
        simp [hl, Flows.detectDrops, List.filterMap_nil, ite_self]
    · simp [if_neg hdb]

/-- C6: every event emitted by drop detection has a strictly lower new price
than old price, and both prices strictly positive; no event with
`priceTo >= priceFrom` is ever produced. -/
theorem C6_drop_monotonicity (now : String)
    (current previous : List Flows.CruiseOffering) (e : Flows.PriceDropInfo)
    (he : e ∈ Flows.detectDrops now current previous) :
    e.priceTo < e.priceFrom ∧ 0 < e.priceFrom ∧ 0 < e.priceTo := by
  unfold Flows.detectDrops at he
  by_cases h : previous.length > 0
  · simp only [if_pos h, List.mem_filterMap] at he
    obtain ⟨c, _, hcd⟩ := he
    unfold Flows.checkDrop at hcd
    split at hcd
    · exact absurd hcd (by simp)
    · split at hcd
      · split at hcd
        · rename_i hcond
          obtain ⟨h1, h2, h3⟩ := hcond
          injection hcd with hcd
          subst hcd
          refine ⟨by linarith, h2, h1⟩
        · exact absurd hcd (by simp)
      · exact absurd hcd (by simp)
      · exact absurd hcd (by simp)
      · exact absurd hcd (by simp)
  · simp only [if_neg h] at he
    exact absurd he (by simp)

/-- C3: for a pair of current and previous offerings sharing an identity key
whose prices both parse to strictly positive numbers, a drop event is emitted
if and only if the previous price exceeds the current one by at least 0.01; a
sub-cent decrease emits nothing and a decrease of exactly 0.01 emits. -/
theorem C3_minimum_delta_threshold (now : String) (c p : Flows.CruiseOffering)
    (hid : p.offering_id = c.offering_id) (cp pp : ℚ)
    (hc : parseFloat c.price = some cp) (hp : parseFloat p.price = some pp)
    (hcpos : 0 < cp) (hppos : 0 < pp) :
    (Flows.detectDrops now [c] [p] ≠ [] ↔ 1 / 100 ≤ pp - cp) := by
  have hm : Flows.buildMap [p] [] = [(p.offering_id, p)] := rfl
  have hlk : Flows.alookup [(p.offering_id, p)] c.offering_id = some p := by
    unfold Flows.alookup
    rw [if_pos hid]
  show List.filterMap (Flows.checkDrop (Flows.buildMap [p] []) now) [c] ≠ [] ↔ _
  rw [hm, List.filterMap_cons]
  unfold Flows.checkDrop
  simp only [hlk, hc, hp]
  by_cases hth : 1 / 100 ≤ pp - cp
  · rw [if_pos ⟨hcpos, hppos, hth⟩]
    simp only [ne_eq, List.cons_ne_nil, not_false_eq_true, true_iff]
    exact hth
  · rw [if_neg (by
      rintro ⟨-, -, h3⟩
      exact hth h3)]
    simp only [List.filterMap_nil, ne_eq, not_true_eq_false, false_iff]
    exact hth

/-- C3 witness: a decrease of exactly 0.01 — current price 99.99 against
previous price 100.00 — emits an event. -/
theorem C3_minimum_delta_threshold_witness :
    Flows.detectDrops "t" [cw] [pw] ≠ [] :=
  (C3_minimum_delta_threshold "t" cw pw rfl (ratOf true 99 99 2) (ratOf true 100 0 2)
    rfl rfl (by norm_num [ratOf]) (by norm_num [ratOf])).mpr (by norm_num [ratOf])

/-- Evaluation of the drop detector on the sample pair: current 99.99 against
previous 100.00 yields exactly the event `ew`. -/
lemma detectDrops_sample_eval : Flows.detectDrops "t" [cw] [pw] = [ew] := by
  have hcond : (0 : ℚ) < ratOf true 99 99 2 ∧ (0 : ℚ) < ratOf true 100 0 2 ∧
      (1 : ℚ) / 100 ≤ ratOf true 100 0 2 - ratOf true 99 99 2 := by
    norm_num [ratOf]
  have h1 : Flows.checkDrop [(pw.offering_id, pw)] "t" cw = some ew := by
    rw [show Flows.checkDrop [(pw.offering_id, pw)] "t" cw =
        (if (0 : ℚ) < ratOf true 99 99 2 ∧ (0 : ℚ) < ratOf true 100 0 2 ∧
            (1 : ℚ) / 100 ≤ ratOf true 100 0 2 - ratOf true 99 99 2 then some ew
          else none) from rfl]
    exact if_pos hcond
  show List.filterMap (Flows.checkDrop (Flows.buildMap [pw] []) "t") [cw] = [ew]
  rw [show Flows.buildMap [pw] [] = [(pw.offering_id, pw)] from rfl,
    List.filterMap_cons, h1]
  rfl

/-- C6 witness: the event emitted for the sample pair has `priceTo` strictly
below `priceFrom` and both prices positive. -/
theorem C6_drop_monotonicity_witness :
    ew.priceTo < ew.priceFrom ∧ 0 < ew.priceFrom ∧ 0 < ew.priceTo :=
  C6_drop_monotonicity "t" [cw] [pw] ew
    (by rw [detectDrops_sample_eval]; exact List.mem_singleton.mpr rfl)

/-- C8: when the page at `url` fails — non-success HTTP status or a thrown
fetch/parse error — the pagination loop stops there and returns exactly the
offerings accumulated from the pages fetched before it, as a normal result
rather than a propagated error. -/
theorem C8_best_effort_on_error (net : String → Api.FetchOutcome) (url : String)
    (h : net url = .httpError ∨ net url = .parseError) (fuel : Nat)
    (acc : List Api.CruiseOffering) (visited : List String) :
    Api.fetchLoop net (fuel + 1) (some url) acc visited =
      some (acc, visited ++ [url]) := by
  cases h with
  | inl h => simp [Api.fetchLoop, h]
  | inr h => simp [Api.fetchLoop, h]

/-- C8 witness: with one page already accumulated and the second URL answering
with an HTTP error, the loop returns the accumulated offerings and stops. -/
theorem C8_best_effort_on_error_witness :
    Api.fetchLoop netFail 3 (some "u2") [aw] ["u1"] = some ([aw], ["u1", "u2"]) :=
  C8_best_effort_on_error netFail "u2" (Or.inl rfl) 2 [aw] ["u1"]

/-- C9: over a feed in which every fetched page's next link is absent or equal
to the URL just fetched, the pagination loop terminates — whatever fuel remains,
it completes after fetching exactly the one page it starts at. -/
theorem C9_self_cycle_terminates (net : String → Api.FetchOutcome)
    (h : ∀ url body, net url = .ok body → body.next = none ∨ body.next = some url)
    (fuel : Nat) (url : String) (acc : List Api.CruiseOffering)
    (visited : List String) :
    ∃ offs, Api.fetchLoop net (fuel + 1) (some url) acc visited =
      some (offs, visited ++ [url]) := by
  cases hnet : net url with
  | httpError => exact ⟨acc, by simp [Api.fetchLoop, hnet]⟩
  | parseError => exact ⟨acc, by simp [Api.fetchLoop, hnet]⟩
  | ok body =>
    refine ⟨acc ++ Api.flattenPage body.cruises, ?_⟩
    cases h url body hnet with
    | inl hn => simp [Api.fetchLoop, hnet, hn]
    | inr hn => simp [Api.fetchLoop, hnet, hn]

/-- C9 witness: a feed that always answers with a next link pointing back at
the fetched URL is fetched exactly once. -/
theorem C9_self_cycle_terminates_witness :
    ∃ offs, Api.fetchLoop netSelf 1 (some "a") [] [] = some (offs, ["a"]) :=
  C9_self_cycle_terminates netSelf
    (fun url body hp => by
      simp only [netSelf, Api.FetchOutcome.ok.injEq] at hp
      rw [hp.symm]
      exact Or.inr rfl)
    0 "a" [] []

lemma netAB_never_terminates (fuel : Nat) :
    ∀ acc visited, Api.fetchLoop netAB fuel (some "a") acc visited = none ∧
      Api.fetchLoop netAB fuel (some "b") acc visited = none := by
  induction fuel with
  | zero => intro acc visited; exact ⟨rfl, rfl⟩
  | succ n ih =>
    intro acc visited
    constructor
    · show Api.fetchLoop netAB n (some "b") (acc ++ Api.flattenPage []) (visited ++ ["a"]) = none
      exact (ih _ _).2
    · show Api.fetchLoop netAB n (some "a") (acc ++ Api.flattenPage []) (visited ++ ["b"]) = none
      exact (ih _ _).1

/-- C10: the cycle guard compares the next link only against the URL just
fetched, so a feed whose next links alternate between two distinct URLs is
followed forever: with any amount of fuel the loop is still running. -/
theorem C10_alternating_cycle_diverges (fuel : Nat) :
    Api.fetchCruises netAB fuel "a" = none :=
  (netAB_never_terminates fuel [] []).1

lemma sep_split {a b c d : List Char} (ha : '|' ∉ a) (hc : '|' ∉ c)
    (h : a ++ '|' :: b = c ++ '|' :: d) : a = c ∧ b = d := by
  induction a generalizing c with
  | nil =>
    cases c with
    | nil => simpa using h
    | cons y ys =>
      simp only [List.nil_append, List.cons_append, List.cons.injEq] at h
      exact absurd (h.1 ▸ List.mem_cons_self y ys) hc
  | cons x xs ih =>
    cases c with
    | nil =>
      simp only [List.cons_append, List.nil_append, List.cons.injEq] at h
      exact absurd (h.1 ▸ List.mem_cons_self x xs) ha
    | cons y ys =>
      simp only [List.cons_append, List.cons.injEq] at h
      obtain ⟨rfl, h2⟩ := h
      have ha' : '|' ∉ xs := fun hm => ha (List.mem_cons_of_mem _ hm)
      have hc' : '|' ∉ ys := fun hm => hc (List.mem_cons_of_mem _ hm)
      obtain ⟨h3, h4⟩ := ih ha' hc' h2
      exact ⟨by rw [h3], h4⟩

lemma offeringKey_data (v d g : String) :
    (Flows.offeringKey v d g).data = v.data ++ '|' :: (d.data ++ '|' :: g.data) := by
  have hbar : ("|" : String).data = ['|'] := rfl
  simp [Flows.offeringKey, string_data_append, hbar, List.append_assoc]

/-- C1: the derived identity key is deterministic and injective on the
identity-relevant fields — whenever none of the components contains the pipe
separator, two keys are equal exactly when vendor, deal and grade all
coincide. -/
theorem C1_identity_key_injective (v1 d1 g1 v2 d2 g2 : String)
    (hv1 : '|' ∉ v1.data) (hd1 : '|' ∉ d1.data) (hg1 : '|' ∉ g1.data)
    (hv2 : '|' ∉ v2.data) (hd2 : '|' ∉ d2.data) (hg2 : '|' ∉ g2.data) :
    Flows.offeringKey v1 d1 g1 = Flows.offeringKey v2 d2 g2 ↔
      v1 = v2 ∧ d1 = d2 ∧ g1 = g2 := by
  constructor
  · intro h
    have hdata := congrArg String.data h
    rw [offeringKey_data, offeringKey_data] at hdata
    obtain ⟨h1, h2⟩ := sep_split hv1 hv2 hdata
    obtain ⟨h3, h4⟩ := sep_split hd1 hd2 h2
    exact ⟨string_ext h1, string_ext h3, string_ext h4⟩
  · rintro ⟨rfl, rfl, rfl⟩
    rfl

/-- C1 witness: concrete keys — identical triples agree, and triples differing
in the deal produce distinct keys. -/
theorem C1_identity_key_injective_witness :
    (Flows.offeringKey "MSC-1" "BELLA" "BAL" = Flows.offeringKey "MSC-1" "FANTASTICA" "BAL" ↔
      ("MSC-1" : String) = "MSC-1" ∧ ("BELLA" : String) = "FANTASTICA" ∧
        ("BAL" : String) = "BAL") :=
  C1_identity_key_injective "MSC-1" "BELLA" "BAL" "MSC-1" "FANTASTICA" "BAL"
    (by decide) (by decide) (by decide) (by decide) (by decide) (by decide)

lemma upsert_cons_eq {α : Type} (k0 k : String) (v0 v : α)
    (rest : List (String × α)) (h : k0 = k) :
    Flows.upsert ((k0, v0) :: rest) k v = (k, v) :: rest := by
  simp [Flows.upsert, h]

lemma upsert_cons_ne {α : Type} (k0 k : String) (v0 v : α)
    (rest : List (String × α)) (h : ¬k0 = k) :
    Flows.upsert ((k0, v0) :: rest) k v = (k0, v0) :: Flows.upsert rest k v := by
  simp [Flows.upsert, h]

lemma alookup_upsert {α : Type} (m : List (String × α)) (k k' : String) (v : α) :
    Flows.alookup (Flows.upsert m k v) k' =
      if k = k' then some v else Flows.alookup m k' := by
  induction m with
  | nil =>
    simp only [Flows.upsert, Flows.alookup]
  | cons p rest ih =>
    obtain ⟨k0, v0⟩ := p
    by_cases h : k0 = k
    · rw [upsert_cons_eq k0 k v0 v rest h]
      subst h
      simp only [Flows.alookup]
      split_ifs <;> rfl
    · rw [upsert_cons_ne k0 k v0 v rest h]
      simp only [Flows.alookup, ih]
      split_ifs with ha hb
      · exact absurd (ha.trans hb.symm) h
      · rfl
      · rfl
      · rfl

lemma mem_upsert {α : Type} (m : List (String × α)) (k : String) (v : α)
    (p : String × α) (hp : p ∈ Flows.upsert m k v) : p ∈ m ∨ p = (k, v) := by
  induction m with
  | nil =>
    simp only [Flows.upsert, List.mem_singleton] at hp
    exact Or.inr hp
  | cons q rest ih =>
    obtain ⟨k0, v0⟩ := q
    by_cases h : k0 = k
    · rw [upsert_cons_eq k0 k v0 v rest h] at hp
      rcases List.mem_cons.mp hp with rfl | hp
      · exact Or.inr rfl
      · exact Or.inl (List.mem_cons_of_mem _ hp)
    · rw [upsert_cons_ne k0 k v0 v rest h] at hp
      rcases List.mem_cons.mp hp with rfl | hp
      · exact Or.inl (List.mem_cons_self _ _)
      · rcases ih hp with hm | hm
        · exact Or.inl (List.mem_cons_of_mem _ hm)
        · exact Or.inr hm

lemma mem_keys_upsert {α : Type} (m : List (String × α)) (k k' : String) (v : α) :
    k' ∈ (Flows.upsert m k v).map Prod.fst ↔
      k' ∈ m.map Prod.fst ∨ k' = k := by
  induction m with
  | nil => simp [Flows.upsert]
  | cons p rest ih =>
    obtain ⟨k0, v0⟩ := p
    by_cases h : k0 = k
    · rw [upsert_cons_eq k0 k v0 v rest h]
      subst h
      simp only [List.map_cons, List.mem_cons]
      tauto
    · rw [upsert_cons_ne k0 k v0 v rest h]
      simp only [List.map_cons, List.mem_cons, ih]
      tauto

lemma nodup_keys_upsert {α : Type} (m : List (String × α)) (k : String) (v : α)
    (h : (m.map Prod.fst).Nodup) : ((Flows.upsert m k v).map Prod.fst).Nodup := by
  induction m with
  | nil => simp [Flows.upsert]
  | cons p rest ih =>
    obtain ⟨k0, v0⟩ := p
    simp only [List.map_cons, List.nodup_cons] at h
    by_cases hk : k0 = k
    · rw [upsert_cons_eq k0 k v0 v rest hk]
      subst hk
      simp only [List.map_cons, List.nodup_cons]
      exact h
    · rw [upsert_cons_ne k0 k v0 v rest hk]
      simp only [List.map_cons, List.nodup_cons]
      refine ⟨?_, ih h.2⟩
      rw [mem_keys_upsert]
      rintro (hm | rfl)
      · exact h.1 hm
      · exact hk rfl

lemma keyedBy_upsert (m : List (String × Flows.CruiseOffering))
    (v : Flows.CruiseOffering) (h : Flows.keyedBy m) :
    Flows.keyedBy (Flows.upsert m v.offering_id v) := by
  intro p hp
  rcases mem_upsert m v.offering_id v p hp with hm | hm
  · exact h p hm
  · subst hm
    rfl

lemma lastWith_cons (k : String) (x : Flows.CruiseOffering)
    (xs : List Flows.CruiseOffering) :
    Flows.lastWith k (x :: xs) =
      match Flows.lastWith k xs with
      | some o => some o
      | none => if x.offering_id = k then some x else none := by
  unfold Flows.lastWith
  rw [List.filter_cons]
  by_cases hx : x.offering_id = k
  · rw [if_pos (by simp [hx])]
    cases hfx : List.filter (fun o => decide (o.offering_id = k)) xs with
    | nil => simp [hx]
    | cons y l =>
      rw [List.getLast?_cons_cons]
      cases hgl : (y :: l).getLast? with
      | none => simp at hgl
      | some o => rfl
  · rw [if_neg (by simp [hx])]
    cases hgl : List.getLast? (List.filter (fun o => decide (o.offering_id = k)) xs) with
    | none =>
      show none = if x.offering_id = k then some x else none
      rw [if_neg hx]
    | some o => rfl

lemma buildMap_cons (x : Flows.CruiseOffering) (xs : List Flows.CruiseOffering)
    (m : List (String × Flows.CruiseOffering)) :
    Flows.buildMap (x :: xs) m = Flows.buildMap xs (Flows.upsert m x.offering_id x) := rfl

lemma alookup_buildMap (xs : List Flows.CruiseOffering)
    (m : List (String × Flows.CruiseOffering)) (k : String) :
    Flows.alookup (Flows.buildMap xs m) k =
      match Flows.lastWith k xs with
      | some o => some o
      | none => Flows.alookup m k := by
  induction xs generalizing m with
  | nil =>
    simp [Flows.buildMap, Flows.lastWith]
  | cons x xs ih =>
    rw [buildMap_cons, ih, lastWith_cons]
    cases hlw : Flows.lastWith k xs with
    | some o => rfl
    | none =>
      simp only [alookup_upsert]
      by_cases hx : x.offering_id = k
      · simp [hx]
      · simp [hx]

lemma nodup_keys_buildMap (xs : List Flows.CruiseOffering)
    (m : List (String × Flows.CruiseOffering))
    (h : (m.map Prod.fst).Nodup) :
    ((Flows.buildMap xs m).map Prod.fst).Nodup := by
  induction xs generalizing m with
  | nil => exact h
  | cons x xs ih =>
    rw [buildMap_cons]
    exact ih _ (nodup_keys_upsert m x.offering_id x h)

lemma keyedBy_buildMap (xs : List Flows.CruiseOffering)
    (m : List (String × Flows.CruiseOffering)) (h : Flows.keyedBy m) :
    Flows.keyedBy (Flows.buildMap xs m) := by
  induction xs generalizing m with
  | nil => exact h
  | cons x xs ih =>
    rw [buildMap_cons]
    exact ih _ (keyedBy_upsert m x h)

lemma values_filter_of_not_mem (m : List (String × Flows.CruiseOffering))
    (k : String) (hk : Flows.keyedBy m) (hnm : k ∉ m.map Prod.fst) :
    (m.map Prod.snd).filter (fun o => o.offering_id = k) = [] := by
  rw [List.filter_eq_nil_iff]
  intro o ho
  rcases List.mem_map.mp ho with ⟨p, hp, rfl⟩
  have : p.2.offering_id = p.1 := hk p hp
  rw [this]
  simp only [decide_eq_true_eq]
  intro hkk
  exact hnm (hkk ▸ List.mem_map_of_mem Prod.fst hp)

lemma values_filter (m : List (String × Flows.CruiseOffering)) (k : String)
    (hk : Flows.keyedBy m) (hn : (m.map Prod.fst).Nodup) :
    (m.map Prod.snd).filter (fun o => o.offering_id = k) =
      (Flows.alookup m k).toList := by
  induction m with
  | nil => rfl
  | cons p rest ih =>
    obtain ⟨k0, v0⟩ := p
    have hv0 : v0.offering_id = k0 := hk (k0, v0) (List.mem_cons_self _ _)
    have hkrest : Flows.keyedBy rest := fun q hq => hk q (List.mem_cons_of_mem _ hq)
    simp only [List.map_cons, List.nodup_cons] at hn
    simp only [List.map_cons, List.filter_cons, Flows.alookup]
    by_cases hx : k0 = k
    · subst hx
      rw [if_pos rfl, if_pos (by simp [hv0]), values_filter_of_not_mem rest k0 hkrest hn.1]
      rfl
    · rw [if_neg hx, if_neg (by simp [hv0, hx])]
      exact ih hkrest hn.2

lemma pairwise_values (m : List (String × Flows.CruiseOffering))
    (hk : Flows.keyedBy m) (hn : (m.map Prod.fst).Nodup) :
    (m.map Prod.snd).Pairwise (fun a b => a.offering_id ≠ b.offering_id) := by
  induction m with
  | nil => exact List.Pairwise.nil
  | cons p rest ih =>
    obtain ⟨k0, v0⟩ := p
    have hv0 : v0.offering_id = k0 := hk (k0, v0) (List.mem_cons_self _ _)
    have hkrest : Flows.keyedBy rest := fun q hq => hk q (List.mem_cons_of_mem _ hq)
    simp only [List.map_cons, List.nodup_cons] at hn
    simp only [List.map_cons]
    refine List.Pairwise.cons ?_ (ih hkrest hn.2)
    intro w hw
    rcases List.mem_map.mp hw with ⟨q, hq, rfl⟩
    have : q.2.offering_id = q.1 := hkrest q hq
    rw [hv0, this]
    intro hkk
    exact hn.1 (hkk ▸ List.mem_map_of_mem Prod.fst hq)

/-- C4: the flattener deduplicates within one fetch by identity key with
last-write-wins semantics — the output never contains two offerings with the
same identity key, and for each key the retained offering is exactly the last
candidate of the fetch carrying that key. -/
theorem C4_dedup_last_write_wins (cruises : List Flows.RawCruise) :
    (Flows.flattenOfferings cruises).Pairwise
        (fun a b => a.offering_id ≠ b.offering_id) ∧
      ∀ k : String,
        (Flows.flattenOfferings cruises).filter (fun o => o.offering_id = k) =
          ((Flows.flattenCandidates cruises).filter
            (fun o => o.offering_id = k)).getLast?.toList := by
  unfold Flows.flattenOfferings
  have hkeyed : Flows.keyedBy (Flows.buildMap (Flows.flattenCandidates cruises) []) :=
    keyedBy_buildMap _ [] (fun p hp => absurd hp (List.not_mem_nil p))
  have hnodup :
      ((Flows.buildMap (Flows.flattenCandidates cruises) []).map Prod.fst).Nodup :=
    nodup_keys_buildMap _ [] List.nodup_nil
  constructor
  · exact pairwise_values _ hkeyed hnodup
  · intro k
    rw [values_filter _ k hkeyed hnodup, alookup_buildMap]
    show _ = (Flows.lastWith k (Flows.flattenCandidates cruises)).toList
    cases Flows.lastWith k (Flows.flattenCandidates cruises) <;> rfl

/-- C7: the flattener builds an offering from a cruise/fare pair exactly when
the grade code is present, the price string parses and the parsed price is
strictly positive; entries failing the condition are skipped silently, the
rest of the page still being processed. -/
theorem C7_retention_condition (cruises : List Flows.RawCruise)
    (o : Flows.CruiseOffering) :
    o ∈ Flows.flattenCandidates cruises ↔
      ∃ c ∈ cruises, ∃ f ∈ c.fares, o = Flows.mkOffering c f ∧
        f.grade_code ≠ "" ∧ ∃ q, parseFloat f.price = some q ∧ 0 < q := by
  unfold Flows.flattenCandidates
  simp only [List.mem_flatMap, List.mem_map, List.mem_filter]
  constructor
  · rintro ⟨c, hc, f, ⟨⟨hf, hret⟩, rfl⟩⟩
    refine ⟨c, hc, f, hf, rfl, ?_⟩
    unfold Flows.fareRetained at hret
    rcases hpf : parseFloat f.price with _ | q
    · rw [hpf] at hret
      simp at hret
    · rw [hpf] at hret
      simp only [Bool.and_eq_true, Bool.not_eq_true', decide_eq_false_iff_not,
        decide_eq_true_eq] at hret
      exact ⟨hret.1, q, rfl, hret.2⟩
  · rintro ⟨c, hc, f, hf, rfl, hgc, q, hq, hqpos⟩
    refine ⟨c, hc, f, ⟨⟨hf, ?_⟩, rfl⟩⟩
    unfold Flows.fareRetained
    rw [hq]
    simp [hgc, hqpos]

end PriceAlert
